import Mathlib

/-!
Shallow embedding of the battleship heatmap pipeline (enumerator, XOR-delta
codec, streaming filter/aggregator) and proofs about it.

Conventions of the embedding:
* `u128` values are `Nat`s; the Rust operations `&`, `|`, `^` cannot overflow,
  and the one truncating operation (`!` complement) is written with an explicit
  `2 ^ 128` mask.
* byte streams are `List Nat` with each element a byte value;
* fallible I/O is `Except Unit`; reading from a pure in-memory byte source can
  only fail with end-of-file, which the source code pattern-matches and turns
  into loop exit, so the embedded readers never construct an error value.
-/

namespace Battleship

/-- `(1u128 << 81) - 1`, the full-board mask (`BoardMask::FULL`). -/
def FULL : Nat := 2 ^ 81 - 1

/-- All bits of a `u128` set, `!0u128`. -/
def U128_MAX : Nat := 2 ^ 128 - 1

/-! ## Byte-level record primitives (`src/lib.rs`, `src/core/filter.rs`) -/

/-- `u128::from_le_bytes` on a list of byte values: byte `i` contributes
`b * 256 ^ i`. -/
def fromLeBytes (bs : List Nat) : Nat :=
  bs.foldr (fun b acc => b + 256 * acc) 0

/-- The bit test the counting loop performs byte by byte:
`(current_record[bit / 8] >> (bit % 8)) & 1 == 1`. -/
def recordBit (record : List Nat) (bit : Nat) : Bool :=
  ((record.getD (bit / 8) 0) >>> (bit % 8)) &&& 1 == 1

/-- The per-record counting loop: `for bit in 0..81 { if bit set { counts[bit] += 1 } }`. -/
def updateCounts (counts : List Nat) (record : List Nat) : List Nat :=
  (List.range 81).foldl
    (fun cs bit => if recordBit record bit then cs.set bit (cs.getD bit 0 + 1) else cs)
    counts

/-- The main loop of `filter_and_count_reader` (`src/lib.rs:89-130`,
`src/core/filter.rs:19-60`).  Each iteration reads one 16-byte record; on
`UnexpectedEof` (clean or mid-record) the loop breaks.  The first record is
taken as-is, later records are XORed byte-by-byte with `prev_record`.  Records
failing a mask check `continue`, which in the source skips the trailing
`prev_record.copy_from_slice(&current_record)` — so `prev` is only updated by
records that pass both mask checks.  The 16-element pattern is `read_exact` on
a 16-byte buffer: it succeeds exactly when 16 bytes remain, and the fallthrough
pattern is the `UnexpectedEof => break` arm — the standard library reports
`UnexpectedEof` both at a clean end of stream and in the middle of a record. -/
def facLoop : List Nat → List Nat → Bool → Nat → Nat → List Nat → Nat → List Nat × Nat
  | b0::b1::b2::b3::b4::b5::b6::b7::b8::b9::b10::b11::b12::b13::b14::b15::rest,
    prev, first, hit, miss, counts, matched =>
    let buf := [b0,b1,b2,b3,b4,b5,b6,b7,b8,b9,b10,b11,b12,b13,b14,b15]
    let current := if first then buf else List.zipWith Nat.xor buf prev
    let raw := fromLeBytes current
    if raw &&& hit ≠ hit then facLoop rest prev false hit miss counts matched
    else if raw &&& miss ≠ 0 then facLoop rest prev false hit miss counts matched
    else facLoop rest current false hit miss (updateCounts counts current) (matched + 1)
  | _, _, _, _, _, counts, matched => (counts, matched)

/-- `filter_and_count_reader(reader, hit_mask, miss_mask)` over an in-memory
byte stream.  The `Err(e) => return Err(e)` arm of the source only re-raises a
non-EOF error of the underlying reader; a pure byte source produces none, so
the result is always `Except.ok`. -/
def filter_and_count_reader (bs : List Nat) (hit miss : Nat) :
    Except Unit (List Nat × Nat) :=
  Except.ok (facLoop bs (List.replicate 16 0) true hit miss (List.replicate 81 0) 0)

/-! ## XOR-delta codec (`src/delta.rs`, `src/core/reader.rs`) -/

/-- The encoder loop of `src/delta.rs:17-41` on a stream already split into
16-byte records: the first record is written as-is, every later record is XORed
byte-by-byte with `prev_record`, and `prev_record` tracks the *input* (logical)
record. -/
def deltaEncodeLoop : List (List Nat) → List Nat → Bool → List (List Nat)
  | [], _, _ => []
  | buf :: rest, prev, first =>
    (if first then buf else List.zipWith Nat.xor buf prev) :: deltaEncodeLoop rest buf false

/-- `src/delta.rs` `main`: encode a record stream starting with
`prev_record = [0u8; 16]`, `first_record = true`. -/
def deltaEncode (s : List (List Nat)) : List (List Nat) :=
  deltaEncodeLoop s (List.replicate 16 0) true

/-- The decoding loop of `DeltaDecodingReader::next` (`src/core/reader.rs:24-44`)
on a stream already split into 16-byte records: the first record passes through
unchanged, every later record is XORed byte-by-byte with `prev`, and `prev`
tracks the *decoded* record. -/
def deltaDecodeLoop : List (List Nat) → List Nat → Bool → List (List Nat)
  | [], _, _ => []
  | buf :: rest, prev, first =>
    let decoded := if first then buf else List.zipWith Nat.xor buf prev
    decoded :: deltaDecodeLoop rest decoded false

/-- `DeltaDecodingReader::new` starts with `prev = [0u8; 16]`, `first = true`;
iterating `next` to exhaustion yields this record stream (each record is then
surfaced as `u128::from_le_bytes`). -/
def deltaDecode (s : List (List Nat)) : List (List Nat) :=
  deltaDecodeLoop s (List.replicate 16 0) true

/-! ## Magic-byte sniffing readers (`src/lib.rs:10-73`, `src/core/reader.rs:48-70`) -/

/-- The zstd magic number `[0x28, 0xB5, 0x2F, 0xFD]`. -/
def ZSTD_MAGIC : List Nat := [0x28, 0xB5, 0x2F, 0xFD]

/-- The byte source handed to the next pipeline stage after sniffing:
either the content given to the zstd decoder, or the plain bytes delivered
directly to the delta decoder. -/
inductive SniffedSource
  | zstd (bytes : List Nat)
  | plain (bytes : List Nat)
deriving DecidableEq

/-- `create_reader_with_magic_detection` (`src/core/reader.rs:48-70`): sniff
four bytes from the (single) reader; on success chain them back in front of the
*remainder*; on `UnexpectedEof` (fewer than four bytes) return the reader,
which `read_exact` has already drained. -/
def create_reader_with_magic_detection (input : List Nat) : SniffedSource :=
  if input.length < 4 then .plain []
  else if input.take 4 = ZSTD_MAGIC then .zstd (input.take 4 ++ input.drop 4)
  else .plain (input.take 4 ++ input.drop 4)

/-- `create_reader_with_compression` (`src/lib.rs:10-40`) as instantiated by
`create_file_reader` (`src/lib.rs:43-46`): the factory is `File::open`, so
every `reader_factory()` call yields a fresh reader positioned at the *start*
of the file.  Four bytes are sniffed from a throwaway reader; in the non-zstd
branch the sniffed bytes are chained in front of a fresh reader that re-reads
the whole file from byte 0. -/
def create_file_reader_lib (input : List Nat) : SniffedSource :=
  if input.length < 4 then .plain input
  else if input.take 4 = ZSTD_MAGIC then .zstd input
  else .plain (input.take 4 ++ input)

/-- `create_stdin_reader` (`src/lib.rs:50-73`): stdin cannot be rewound, so the
sniffed bytes are chained back in front of the same (partially consumed)
stream. -/
def create_stdin_reader_lib (input : List Nat) : SniffedSource :=
  if input.length < 4 then .plain []
  else if input.take 4 = ZSTD_MAGIC then .zstd (input.take 4 ++ input.drop 4)
  else .plain (input.take 4 ++ input.drop 4)

/-! ## Chunked encoder (`src/bin/encoder.rs`) -/

/-- The loop body of `write_chunk` (`src/bin/encoder.rs:12-52`), at the record
level (each iteration of the source reads one whole 16-byte record and writes
one 16-byte delta).  Arguments mirror the locals: remaining input, remaining
`max_records` budget, `last_record`, `count`, `union`, `intersection`.  Note
`last_record` starts at `0u128` *inside* `write_chunk`.  Returns the written
deltas, `count`, `union`, `intersection`, and the unconsumed input. -/
def writeChunkLoop : List Nat → Nat → Nat → Nat → Nat → Nat →
    List Nat × Nat × Nat × Nat × List Nat
  | input, 0, _, count, uni, inter => ([], count, uni, inter, input)
  | [], _ + 1, _, count, uni, inter => ([], count, uni, inter, [])
  | r :: rs, k + 1, last, count, uni, inter =>
    let delta := r ^^^ last
    let (out, c, u, i, rest) := writeChunkLoop rs k r (count + 1) (uni ||| r) (inter &&& r)
    (delta :: out, c, u, i, rest)

/-- `write_chunk(reader, writer, max_records)`: `intersection = !0u128`,
`union = 0`, `last_record = 0`, `count = 0`. -/
def write_chunk (input : List Nat) (maxRecords : Nat) :
    List Nat × Nat × Nat × Nat × List Nat :=
  writeChunkLoop input maxRecords 0 0 0 U128_MAX

/-- The XOR-delta of the entire logical stream, as the spec words it
(`encoded[i] = logical[i] XOR logical[i-1]` with `logical[-1] = 0`).  This is
the spec-side reference definition for the refinement claim about chunking. -/
def wholeStreamDelta : List Nat → Nat → List Nat
  | [], _ => []
  | r :: rs, prev => (r ^^^ prev) :: wholeStreamDelta rs r

/-! ## FFI entry point (`src/lib/ffi.rs`, `src/lib.rs:216-244`) -/

/-- `filter_and_count_ffi`, parametrized over the two effects it consumes: the
result of `CStr::to_str` on `path_ptr` (`none` models invalid UTF-8) and the
result of the inner `filter_and_count` run on that path.  The returned pair is
(return value, bytes written through `out_counts`): `some counts` models
`slice::copy_from_slice`, `none` models the buffer being left untouched. -/
def filter_and_count_ffi (pathUtf8 : Option String)
    (runResult : Except Unit (List Nat × Nat)) : Nat × Option (List Nat) :=
  match pathUtf8 with
  | none => (0, none)
  | some _ =>
    match runResult with
    | .ok (counts, matched) => (matched, some counts)
    | .error _ => (0, none)

/-! ## Board primitives (`src/generator/point.rs`, `src/generator/board_mask.rs`) -/

/-- `Point`: signed `(x, y)` pair (`i32` in the source). -/
structure Point where
  x : Int
  y : Int
deriving DecidableEq

/-- `Direction`: Horizontal or Vertical. -/
inductive Direction
  | horizontal
  | vertical
deriving DecidableEq

/-- `Point + Point`. -/
def Point.add (p q : Point) : Point := ⟨p.x + q.x, p.y + q.y⟩

/-- `Point - Point`. -/
def Point.sub (p q : Point) : Point := ⟨p.x - q.x, p.y - q.y⟩

/-- `Direction * i32 -> Point`: unit vector scaled by a length. -/
def Direction.scale : Direction → Int → Point
  | .horizontal, len => ⟨len, 0⟩
  | .vertical, len => ⟨0, len⟩

/-- `BoardMask::contains`: both coordinates in `0..9`. -/
def contains (p : Point) : Bool :=
  0 ≤ p.x && p.x < 9 && 0 ≤ p.y && p.y < 9

/-- `BoardMask::index_of`: `(y * 9 + x) as usize` (the source asserts
`contains point` first; for contained points the value is in `0..81`). -/
def index_of (p : Point) : Nat := (p.y * 9 + p.x).toNat

/-- `BoardMask::point_of`: `(index % 9, index / 9)` (the source asserts
`index < 81`). -/
def point_of (i : Nat) : Point := ⟨(i % 9 : Nat), (i / 9 : Nat)⟩

/-- `BoardMask::set(point, true)`: `raw |= 1 << index`. -/
def maskSetTrue (m : Nat) (p : Point) : Nat := m ||| (1 <<< index_of p)

/-- `BoardMask::set(point, false)`: `raw &= !(1 << index)`, the complement
taken in `u128`. -/
def maskSetFalse (m : Nat) (p : Point) : Nat := m &&& (U128_MAX ^^^ (1 <<< index_of p))

/-- `BoardMask::get(point)`: `(raw & (1 << index)) != 0`. -/
def maskGet (m : Nat) (p : Point) : Bool := m &&& (1 <<< index_of p) ≠ 0

/-- The `Not` implementation of `BoardMask`: `!raw & FULL`, the `u128`
complement masked down to the low 81 bits. -/
def maskNot (m : Nat) : Nat := (U128_MAX ^^^ m) &&& FULL

/-- Fuel-driven computation of the number of trailing zero bits: count how
often the value halves before becoming odd.  For `m ≠ 0` a fuel of `m` is more
than enough, since the count is at most `log2 m < m`. -/
def trailingZerosGo : Nat → Nat → Nat
  | 0, _ => 0
  | fuel + 1, m => if m % 2 = 1 then 0 else trailingZerosGo fuel (m / 2) + 1

/-- `u128::trailing_zeros` for a nonzero value (the source only calls it after
the zero check in `first_set_position`). -/
def trailingZeros (m : Nat) : Nat := trailingZerosGo m m

/-- `BoardMask::first_set_position`: `None` for the empty mask, otherwise the
point of the lowest set bit. -/
def first_set_position (m : Nat) : Option Point :=
  if m = 0 then none else some (point_of (trailingZeros m))

/-! ## Placement masks (`src/generator/common_masks.rs`) -/

/-- `a..=b` over `Int`, in increasing order (empty when `b < a`). -/
def intRange (a b : Int) : List Int :=
  (List.range (b + 1 - a).toNat).map (fun i => a + i)

/-- The iteration order of the nested loops
`for x in start.x..=end.x { for y in start.y..=end.y { .. } }`. -/
def rectPoints (s e : Point) : List Point :=
  (intRange s.x e.x).flatMap (fun x => (intRange s.y e.y).map (fun y => ⟨x, y⟩))

/-- The body of `generate_mask_for_ship_hit`'s loops: set each contained point,
or abort (`none`, modelling `return BoardMask::FULL`) at the first point out of
bounds. -/
def setAllOrAbort : List Point → Nat → Option Nat
  | [], acc => some acc
  | p :: ps, acc => if contains p then setAllOrAbort ps (maskSetTrue acc p) else none

/-- `generate_mask_for_ship_hit(length, starting_point, direction)`
(`src/generator/common_masks.rs:83-103`): the footprint cells of the ship, or
FULL if any footprint cell is out of bounds. -/
def generate_mask_for_ship_hit (length : Int) (start : Point) (dir : Direction) : Nat :=
  let e := start.add (dir.scale (length - 1))
  match setAllOrAbort (rectPoints start e) 0 with
  | some m => m
  | none => FULL

/-- `generate_mask_for_ship_outline(length, starting_point, direction)`
(`src/generator/common_masks.rs:105-129`): FULL when the hit mask is FULL,
otherwise the in-bounds cells of the one-cell-enlarged rectangle minus the
footprint. -/
def generate_mask_for_ship_outline (length : Int) (start : Point) (dir : Direction) : Nat :=
  let s := start.sub ⟨1, 1⟩
  let e := (start.add (dir.scale (length - 1))).add ⟨1, 1⟩
  let hit_mask := generate_mask_for_ship_hit length start dir
  if hit_mask = FULL then FULL
  else
    let m := (rectPoints s e).foldl (fun acc p => if contains p then maskSetTrue acc p else acc) 0
    m &&& maskNot hit_mask

/-- `CommonMasks::mask_for_ship_hit`: the precomputed table entry at
`(direction, length, index_of starting_point)`.  The table is filled with
`generate_mask_for_ship_hit(length, point_of i, direction)` for `i in 0..81`,
so for an in-bounds anchor the lookup equals the generator applied directly
(out-of-bounds anchors make the source panic in `index_of`). -/
def mask_for_ship_hit (length : Int) (p : Point) (dir : Direction) : Nat :=
  generate_mask_for_ship_hit length p dir

/-- `CommonMasks::mask_for_ship_outline`: table lookup, equal to
`generate_mask_for_ship_outline` for in-bounds anchors. -/
def mask_for_ship_outline (length : Int) (p : Point) (dir : Direction) : Nat :=
  generate_mask_for_ship_outline length p dir

/-! ## Board state (`src/generator/board_state.rs`) -/

/-- `CellState`. -/
inductive CellState
  | Open
  | Hit
  | Miss
deriving DecidableEq

/-- `BoardState`: hit/miss masks and remaining ship counters (`usize`). -/
structure BoardState where
  hit_mask : Nat
  miss_mask : Nat
  three_count_remaining : Nat
  four_count_remaining : Nat
deriving DecidableEq

/-- `BoardState::EMPTY = (0, 0, 5, 3)`. -/
def BoardState.EMPTY : BoardState := ⟨0, 0, 5, 3⟩

/-- `BoardState::open_mask`: `FULL & !hit_mask & !miss_mask` (with the
`BoardMask` complement). -/
def BoardState.open_mask (s : BoardState) : Nat :=
  FULL &&& maskNot s.hit_mask &&& maskNot s.miss_mask

/-- `BoardState::set` (`src/generator/board_state.rs:58-73`). -/
def BoardState.set_cell (s : BoardState) (p : Point) : CellState → BoardState
  | .Hit => { s with hit_mask := maskSetTrue s.hit_mask p,
                     miss_mask := maskSetFalse s.miss_mask p }
  | .Miss => { s with hit_mask := maskSetFalse s.hit_mask p,
                      miss_mask := maskSetTrue s.miss_mask p }
  | .Open => { s with hit_mask := maskSetFalse s.hit_mask p,
                      miss_mask := maskSetFalse s.miss_mask p }

/-- `BoardState::placing_ship` (`src/generator/board_state.rs:75-113`): copy
the state; match on the length, failing (`None`) on an exhausted counter or a
length other than 3/4, else decrement; then fail if the current hit mask meets
the placement's hit mask or outline mask; else merge both masks in.  There is
no test against the FULL sentinel. -/
def placing_ship (s : BoardState) (length : Int) (starting_point : Point)
    (direction : Direction) : Option BoardState :=
  let counterChecked : Option BoardState :=
    if length = 3 then
      if s.three_count_remaining = 0 then none
      else some { s with three_count_remaining := s.three_count_remaining - 1 }
    else if length = 4 then
      if s.four_count_remaining = 0 then none
      else some { s with four_count_remaining := s.four_count_remaining - 1 }
    else none
  match counterChecked with
  | none => none
  | some copy =>
    let move_hit_mask := mask_for_ship_hit length starting_point direction
    let move_miss_mask := mask_for_ship_outline length starting_point direction
    if s.hit_mask &&& move_hit_mask ≠ 0 then none
    else if s.hit_mask &&& move_miss_mask ≠ 0 then none
    else some { copy with hit_mask := s.hit_mask ||| move_hit_mask,
                          miss_mask := s.miss_mask ||| move_miss_mask }

/-! ## The enumerator's step relation (`src/bin/generator.rs:99-139`) -/

/-- States produced by `count_of_valid_endings`' recursion from a given state:
at the first open cell `P` it tries `placing_ship` with `(3, H)`, `(3, V)`,
`(4, H)`, `(4, V)`, and marking `P` as a miss. -/
inductive EnumReachable : BoardState → Prop
  | init : EnumReachable BoardState.EMPTY
  | place (s s' : BoardState) (p : Point) (L : Int) (d : Direction) :
      EnumReachable s →
      first_set_position s.open_mask = some p →
      (L = 3 ∨ L = 4) →
      placing_ship s L p d = some s' →
      EnumReachable s'
  | mark_miss (s : BoardState) (p : Point) :
      EnumReachable s →
      first_set_position s.open_mask = some p →
      EnumReachable (s.set_cell p CellState.Miss)

/-! ## Dihedral symmetries (`src/generator/symmetries.rs`) -/

/-- `BOARD_SIZE`. -/
def BOARD_SIZE : Nat := 9

/-- `index(x, y) = y * BOARD_SIZE + x`. -/
def symIndex (x y : Nat) : Nat := y * BOARD_SIZE + x

/-- `get_bit(board, x, y)`. -/
def get_bit (board : Nat) (x y : Nat) : Bool := (board >>> symIndex x y) &&& 1 == 1

/-- `set_bit(board, x, y)`. -/
def set_bit (board : Nat) (x y : Nat) : Nat := board ||| (1 <<< symIndex x y)

/-- `transform(original, transform_fn)`: move every set bit through the
coordinate map, iterating `y` then `x` over `0..BOARD_SIZE`. -/
def symTransform (original : Nat) (tf : Nat → Nat → Nat × Nat) : Nat :=
  (List.range BOARD_SIZE).foldl
    (fun acc y =>
      (List.range BOARD_SIZE).foldl
        (fun acc2 x =>
          if get_bit original x y then set_bit acc2 (tf x y).1 (tf x y).2 else acc2)
        acc)
    0

/-- `generate_symmetries(board)`: the 8 images under the dihedral group, in
source order: identity, horizontal flip, vertical flip, 180° rotation,
transpose, 90° rotation, 270° rotation, anti-diagonal mirror. -/
def generate_symmetries (board : Nat) : List Nat :=
  [ board,
    symTransform board (fun x y => (BOARD_SIZE - 1 - x, y)),
    symTransform board (fun x y => (x, BOARD_SIZE - 1 - y)),
    symTransform board (fun x y => (BOARD_SIZE - 1 - x, BOARD_SIZE - 1 - y)),
    symTransform board (fun x y => (y, x)),
    symTransform board (fun x y => (BOARD_SIZE - 1 - y, x)),
    symTransform board (fun x y => (y, BOARD_SIZE - 1 - x)),
    symTransform board (fun x y => (BOARD_SIZE - 1 - y, BOARD_SIZE - 1 - x)) ]

/-- `is_canonical(board)`: the board equals the minimum of its orbit. -/
def is_canonical (board : Nat) : Bool :=
  match (generate_symmetries board).min? with
  | some m => board == m
  | none => false

/-- The output decision of `write_all_valid_boards`' callback
(`src/bin/generator.rs:70-95`): of the complete boards the enumeration visits,
exactly the canonical ones are appended to the output data (the 4096-byte
buffering preserves order and content). -/
def write_all_valid_boards_output (completeBoards : List Nat) : List Nat :=
  completeBoards.filter (fun b => is_canonical b)

/-! ## Helper lemmas -/

/-- Unfolding `facLoop` one record at a time: reading a full 16-byte record off
the front of the stream. -/
theorem facLoop_step (r rest : List Nat) (hr : r.length = 16)
    (prev : List Nat) (first : Bool) (hit miss : Nat) (counts : List Nat) (matched : Nat) :
    facLoop (r ++ rest) prev first hit miss counts matched =
      (let current := if first then r else List.zipWith Nat.xor r prev
       let raw := fromLeBytes current
       if raw &&& hit ≠ hit then facLoop rest prev false hit miss counts matched
       else if raw &&& miss ≠ 0 then facLoop rest prev false hit miss counts matched
       else facLoop rest current false hit miss (updateCounts counts current) (matched + 1)) := by
  rcases r with _ | ⟨b0, r⟩; · simp at hr
  rcases r with _ | ⟨b1, r⟩; · simp at hr
  rcases r with _ | ⟨b2, r⟩; · simp at hr
  rcases r with _ | ⟨b3, r⟩; · simp at hr
  rcases r with _ | ⟨b4, r⟩; · simp at hr
  rcases r with _ | ⟨b5, r⟩; · simp at hr
  rcases r with _ | ⟨b6, r⟩; · simp at hr
  rcases r with _ | ⟨b7, r⟩; · simp at hr
  rcases r with _ | ⟨b8, r⟩; · simp at hr
  rcases r with _ | ⟨b9, r⟩; · simp at hr
  rcases r with _ | ⟨b10, r⟩; · simp at hr
  rcases r with _ | ⟨b11, r⟩; · simp at hr
  rcases r with _ | ⟨b12, r⟩; · simp at hr
  rcases r with _ | ⟨b13, r⟩; · simp at hr
  rcases r with _ | ⟨b14, r⟩; · simp at hr
  rcases r with _ | ⟨b15, r⟩; · simp at hr
  rcases r with _ | ⟨b16, r⟩
  · rfl
  · simp at hr

/-- `facLoop` on fewer than 16 remaining bytes is the `UnexpectedEof` break. -/
theorem facLoop_short (bs : List Nat) (h : bs.length < 16)
    (prev : List Nat) (first : Bool) (hit miss : Nat) (counts : List Nat) (matched : Nat) :
    facLoop bs prev first hit miss counts matched = (counts, matched) := by
  rcases bs with _ | ⟨b0, bs⟩; · rfl
  rcases bs with _ | ⟨b1, bs⟩; · rfl
  rcases bs with _ | ⟨b2, bs⟩; · rfl
  rcases bs with _ | ⟨b3, bs⟩; · rfl
  rcases bs with _ | ⟨b4, bs⟩; · rfl
  rcases bs with _ | ⟨b5, bs⟩; · rfl
  rcases bs with _ | ⟨b6, bs⟩; · rfl
  rcases bs with _ | ⟨b7, bs⟩; · rfl
  rcases bs with _ | ⟨b8, bs⟩; · rfl
  rcases bs with _ | ⟨b9, bs⟩; · rfl
  rcases bs with _ | ⟨b10, bs⟩; · rfl
  rcases bs with _ | ⟨b11, bs⟩; · rfl
  rcases bs with _ | ⟨b12, bs⟩; · rfl
  rcases bs with _ | ⟨b13, bs⟩; · rfl
  rcases bs with _ | ⟨b14, bs⟩; · rfl
  rcases bs with _ | ⟨b15, bs⟩; · rfl
  simp only [List.length_cons] at h
  omega

/-- `facLoop` only ever looks at the first `16 * (length / 16)` bytes: the
partial trailing record (if any) never influences the result. -/
theorem facLoop_take_boundary (n : Nat) (bs : List Nat) (hb : bs.length ≤ n)
    (prev : List Nat) (first : Bool) (hit miss : Nat) (counts : List Nat) (matched : Nat) :
    facLoop bs prev first hit miss counts matched =
      facLoop (bs.take (16 * (bs.length / 16))) prev first hit miss counts matched := by
  induction n generalizing bs prev first counts matched with
  | zero =>
    have : bs = [] := List.length_eq_zero.mp (Nat.le_zero.mp hb)
    subst this; rfl
  | succ n ih =>
    by_cases h16 : 16 ≤ bs.length
    · obtain ⟨r, rest, hr, rfl⟩ : ∃ r rest, r.length = 16 ∧ bs = r ++ rest :=
        ⟨bs.take 16, bs.drop 16, by simp [List.length_take]; omega,
          (List.take_append_drop 16 bs).symm⟩
      have hlen : (r ++ rest).length = 16 + rest.length := by simp [hr]
      have hdiv : 16 * ((r ++ rest).length / 16) = 16 + 16 * (rest.length / 16) := by
        rw [hlen]; omega
      have htake : (r ++ rest).take (16 + 16 * (rest.length / 16)) =
          r ++ rest.take (16 * (rest.length / 16)) := by
        rw [List.take_append_eq_append_take]
        congr 1
        · exact List.take_of_length_le (by omega)
        · congr 1; omega
      have hrest : rest.length ≤ n := by
        have := hlen ▸ hb; omega
      rw [hdiv, htake, facLoop_step r rest hr, facLoop_step r _ hr]
      dsimp only
      split_ifs <;> exact ih rest hrest _ false _ _
    · have hz : bs.length / 16 = 0 := by omega
      rw [hz]
      simp only [Nat.mul_zero, List.take_zero]
      rw [facLoop_short bs (by omega), facLoop_short [] (by simp)]

/-! ## Claim C1 -/

/-- C1: on the encoded stream `[0x01, 0x02, 0x04]` with `hit = 0x4`,
`miss = 0`, `filter_and_count_reader` yields `matched = 1` but
`counts = [0, 0, 1, 0, …]`, not the `counts[0] = counts[1] = counts[2] = 1`
the claim derives from decode-then-filter semantics: because `prev_record` is
only updated by records that pass the filter, the third record is decoded
against the all-zero initial accumulator (yielding `0x04`) instead of against
the logical value `0x03` (which would yield `0x07`). -/
theorem filter_coupled_decode_at_spec_sample :
    filter_and_count_reader
        ((1 :: List.replicate 15 0) ++ (2 :: List.replicate 15 0) ++ (4 :: List.replicate 15 0))
        4 0 = Except.ok ((List.replicate 81 0).set 2 1, 1) ∧
      ((List.replicate 81 0).set 2 1).getD 0 0 = 0 ∧
      ((List.replicate 81 0).set 2 1).getD 1 0 = 0 ∧
      ((List.replicate 81 0).set 2 1).getD 2 0 = 1 :=
  ⟨rfl, by decide, by decide, by decide⟩

/-- Context for the bug above: the repository's decoupled decoder
(`DeltaDecodingReader`) decodes the same three records unconditionally,
yielding the logical values `0x01, 0x03, 0x07` — on which the filter
`hit = 0x4` would accept exactly `0x07` and count bits 0, 1 and 2 once each,
as the claim states. -/
theorem deltaDecode_of_spec_sample :
    (deltaDecode
        [1 :: List.replicate 15 0, 2 :: List.replicate 15 0, 4 :: List.replicate 15 0]).map
      fromLeBytes = [1, 3, 7] :=
  rfl

/-! ## Claim C6 -/

/-- C6 counterexample: a 17-byte stream — one full record (`0x01`) followed by
a single stray byte — makes `filter_and_count_reader` return `Except.ok` with
the partial record silently discarded, not an I/O error: `read_exact` reports
`UnexpectedEof` for the partial record and the loop's
`Err(e) if e.kind() == UnexpectedEof => break` arm treats that exactly like a
clean end of stream. -/
theorem truncated_tail_returns_ok :
    filter_and_count_reader ((1 :: List.replicate 15 0) ++ [0xAB]) 0 0 =
      Except.ok ((List.replicate 81 0).set 0 1, 1) :=
  rfl

/-- C6 amended: `filter_and_count_reader` never fails on truncation; a
partial trailing record is silently dropped — the result on any byte stream
equals the result on the stream cut back to the last whole-record boundary,
and clean EOF at a boundary likewise terminates normally with the accumulated
`(counts, matched_total)`. -/
theorem filter_and_count_reader_drops_partial_record (bs : List Nat) (hit miss : Nat) :
    filter_and_count_reader bs hit miss =
      filter_and_count_reader (bs.take (16 * (bs.length / 16))) hit miss := by
  simp only [filter_and_count_reader]
  have h := facLoop_take_boundary bs.length bs le_rfl (List.replicate 16 0) true hit miss
    (List.replicate 81 0) 0
  rw [h]

/-! ## Claim C7 -/

/-- C7: for a non-zstd *file* of content `[1, 2, 3, 4, 5]`,
`create_reader_with_compression` as used by `create_file_reader` delivers
`[1, 2, 3, 4, 1, 2, 3, 4, 5]` to the delta decoder — the sniffed four bytes
are chained in front of a *fresh* reader that restarts at byte 0, so they are
duplicated rather than transparently re-prepended.  The parallel
`create_reader_with_magic_detection` of `src/core/reader.rs` (and the stdin
path) delivers the original content exactly, which is the behaviour the claim
describes. -/
theorem file_reader_duplicates_sniffed_bytes :
    create_file_reader_lib [1, 2, 3, 4, 5] = SniffedSource.plain [1, 2, 3, 4, 1, 2, 3, 4, 5] ∧
      create_reader_with_magic_detection [1, 2, 3, 4, 5] = SniffedSource.plain [1, 2, 3, 4, 5] ∧
      create_stdin_reader_lib [1, 2, 3, 4, 5] = SniffedSource.plain [1, 2, 3, 4, 5] :=
  ⟨rfl, rfl, rfl⟩

/-! ## Claim C10 -/

/-- C10: when the inner `filter_and_count` fails (or the path pointer is not
valid UTF-8), `filter_and_count_ffi` returns 0 and leaves `out_counts`
unwritten; the returned value is identical to that of a successful run that
matched zero boards. -/
theorem ffi_error_reports_zero_matches (p : String) (res : Except Unit (List Nat × Nat))
    (counts : List Nat) (h : res.isOk = false) :
    filter_and_count_ffi (some p) res = (0, none) ∧
      filter_and_count_ffi none res = (0, none) ∧
      (filter_and_count_ffi (some p) (Except.ok (counts, 0))).1 =
        (filter_and_count_ffi (some p) res).1 := by
  cases res with
  | error e => exact ⟨rfl, rfl, rfl⟩
  | ok v => simp [Except.isOk, Except.toBool] at h

/-- C10 witness: the theorem applied to a concrete failing run. -/
theorem ffi_error_reports_zero_matches_witness :
    filter_and_count_ffi (some "deltas.bin") (Except.error ()) = (0, none) ∧
      filter_and_count_ffi none (Except.error ()) = (0, none) ∧
      (filter_and_count_ffi (some "deltas.bin")
          (Except.ok (List.replicate 81 0, 0))).1 =
        (filter_and_count_ffi (some "deltas.bin") (Except.error ())).1 :=
  ffi_error_reports_zero_matches "deltas.bin" (Except.error ()) (List.replicate 81 0) rfl

/-! ## Claim C5 -/

/-- Bytewise XOR undoes itself on equal-length buffers. -/
theorem zipWith_xor_cancel (a b : List Nat) (h : a.length = b.length) :
    List.zipWith Nat.xor (List.zipWith Nat.xor a b) b = a := by
  induction a generalizing b with
  | nil => simp
  | cons x xs ih =>
    cases b with
    | nil => simp at h
    | cons y ys =>
      simp only [List.zipWith_cons_cons, List.cons.injEq]
      exact ⟨Nat.xor_cancel_right y x, ih ys (by simpa using h)⟩

/-- Decoding undoes encoding from any common 16-byte `prev` buffer, once past
the first record. -/
theorem deltaDecodeLoop_encodeLoop (s : List (List Nat)) :
    ∀ prev : List Nat, (∀ r ∈ s, r.length = 16) → prev.length = 16 →
      deltaDecodeLoop (deltaEncodeLoop s prev false) prev false = s := by
  induction s with
  | nil => intro prev _ _; rfl
  | cons buf rest ih =>
    intro prev hlen hprev
    have hbuf : buf.length = 16 := hlen buf (List.mem_cons_self buf rest)
    simp only [deltaEncodeLoop, deltaDecodeLoop, if_neg (Bool.false_ne_true)]
    rw [zipWith_xor_cancel buf prev (hbuf.trans hprev.symm)]
    exact congrArg (buf :: ·) (ih buf (fun r hr => hlen r (List.mem_cons_of_mem buf hr)) hbuf)

/-- The encoder writes exactly one 16-byte delta per 16-byte input record. -/
theorem deltaEncodeLoop_length (s : List (List Nat)) :
    ∀ (prev : List Nat) (first : Bool), (deltaEncodeLoop s prev first).length = s.length := by
  induction s with
  | nil => intro prev first; rfl
  | cons r rest ih => intro prev first; simpa [deltaEncodeLoop] using ih r false

/-- C5: for every finite sequence of 16-byte records, delta-decoding
(`DeltaDecodingReader`'s XOR against the previous decoded record, starting
from an all-zero accumulator) the output of the delta encoder (`src/delta.rs`)
yields the original sequence; the encoding is length-preserving and the first
record passes through unchanged. -/
theorem delta_decode_encode_roundtrip (s : List (List Nat)) (h : ∀ r ∈ s, r.length = 16) :
    deltaDecode (deltaEncode s) = s ∧
      (deltaEncode s).length = s.length ∧
      (deltaEncode s).head? = s.head? := by
  refine ⟨?_, ?_, ?_⟩
  · cases s with
    | nil => rfl
    | cons r rest =>
      simp only [deltaEncode, deltaDecode, deltaEncodeLoop, deltaDecodeLoop, if_pos rfl]
      exact congrArg (r :: ·)
        (deltaDecodeLoop_encodeLoop rest r
          (fun x hx => h x (List.mem_cons_of_mem r hx)) (h r (List.mem_cons_self r rest)))
  · exact deltaEncodeLoop_length s _ true
  · cases s with
    | nil => rfl
    | cons r rest => rfl

/-- C5 witness: the round trip at a concrete two-record sequence. -/
theorem delta_decode_encode_roundtrip_witness :
    deltaDecode (deltaEncode [List.replicate 16 1, List.replicate 16 3]) =
        [List.replicate 16 1, List.replicate 16 3] ∧
      (deltaEncode [List.replicate 16 1, List.replicate 16 3]).length =
        ([List.replicate 16 1, List.replicate 16 3] : List (List Nat)).length ∧
      (deltaEncode [List.replicate 16 1, List.replicate 16 3]).head? =
        ([List.replicate 16 1, List.replicate 16 3] : List (List Nat)).head? :=
  delta_decode_encode_roundtrip [List.replicate 16 1, List.replicate 16 3] (by decide)

/-! ## Claim C9 -/

/-- C9 counterexample: two successive `write_chunk` calls with
`max_records = 1` on the logical stream `[1, 3]` emit `[1] ++ [3] = [1, 3]`,
because `last_record` restarts at `0u128` inside each call; the XOR-delta of
the entire stream is `[1, 2]`.  So chunk boundaries do reset the delta
accumulator, contrary to the claim. -/
theorem write_chunk_resets_accumulator :
    (write_chunk [1, 3] 1).1 ++ (write_chunk (write_chunk [1, 3] 1).2.2.2.2 1).1 = [1, 3] ∧
      wholeStreamDelta [1, 3] 0 = [1, 2] ∧
      ([1, 3] : List Nat) ≠ [1, 2] :=
  ⟨rfl, rfl, by decide⟩

/-- A `write_chunk` call whose budget covers the whole remaining input
consumes it entirely and emits exactly the XOR-delta from its local
accumulator. -/
theorem writeChunkLoop_total (input : List Nat) :
    ∀ (k last count uni inter : Nat), input.length ≤ k →
      (writeChunkLoop input k last count uni inter).1 = wholeStreamDelta input last ∧
        (writeChunkLoop input k last count uni inter).2.2.2.2 = [] := by
  induction input with
  | nil =>
    intro k last count uni inter _
    cases k with
    | zero => exact ⟨rfl, rfl⟩
    | succ k => exact ⟨rfl, rfl⟩
  | cons r rs ih =>
    intro k last count uni inter hk
    cases k with
    | zero => simp at hk
    | succ k =>
      have h := ih k r (count + 1) (uni ||| r) (inter &&& r) (by simpa using hk)
      simp only [writeChunkLoop, wholeStreamDelta]
      constructor
      · exact congrArg ((r ^^^ last) :: ·) h.1
      · exact h.2

/-- C9 amended: the concatenated output of successive `write_chunk` calls is
the XOR-delta computed with the accumulator reset to zero at each chunk start
(each chunk's first record is emitted raw); it coincides with the XOR-delta of
the entire logical stream exactly when the whole stream fits in a single chunk
— in particular whenever the record count is at most `max_records`, where the
single call consumes everything and later calls contribute nothing. -/
theorem write_chunk_single_chunk_is_whole_delta (input : List Nat) (maxRecords : Nat)
    (h : input.length ≤ maxRecords) :
    (write_chunk input maxRecords).1 = wholeStreamDelta input 0 ∧
      (write_chunk input maxRecords).2.2.2.2 = [] :=
  writeChunkLoop_total input maxRecords 0 0 0 U128_MAX h

/-- C9 witness: a two-record stream in a single sufficiently large chunk. -/
theorem write_chunk_single_chunk_is_whole_delta_witness :
    (write_chunk [1, 3] 500000000).1 = wholeStreamDelta [1, 3] 0 ∧
      (write_chunk [1, 3] 500000000).2.2.2.2 = [] :=
  write_chunk_single_chunk_is_whole_delta [1, 3] 500000000 (by decide)

/-! ## Claim C8 -/

/-- C8: every bitmap the enumerator writes to its output data satisfies
`is_canonical` and equals the minimum of its 8-element dihedral orbit
`generate_symmetries` — the emission is guarded by `if is_canonical_board`,
and `is_canonical` is literally the test `board == *symmetries.iter().min()`. -/
theorem written_boards_are_orbit_minima (boards : List Nat) (b : Nat)
    (h : b ∈ write_all_valid_boards_output boards) :
    is_canonical b = true ∧ (generate_symmetries b).min? = some b := by
  have hc : is_canonical b = true := (List.mem_filter.mp h).2
  refine ⟨hc, ?_⟩
  unfold is_canonical at hc
  cases hmin : (generate_symmetries b).min? with
  | none => rw [hmin] at hc; cases hc
  | some m =>
    rw [hmin] at hc
    have : b = m := by simpa using hc
    rw [this]

/-- C8 witness: the symmetric sample board `0b101_000_101` from the repository
tests is emitted and is its own orbit minimum. -/
theorem written_boards_are_orbit_minima_witness :
    is_canonical 325 = true ∧ (generate_symmetries 325).min? = some 325 :=
  written_boards_are_orbit_minima [325] 325 (by decide)

/-! ## Claim C3 -/

/-- C3 counterexample: a length-3 horizontal ship anchored at the in-bounds
point `(7, 0)` sticks out of the board, so its precomputed hit mask is the
FULL sentinel — yet `placing_ship` on the empty board *succeeds* (no FULL
check is performed; `0 & FULL == 0` passes both mask tests), returning the
corrupted state with both masks FULL. -/
theorem placing_ship_accepts_full_sentinel :
    mask_for_ship_hit 3 ⟨7, 0⟩ Direction.horizontal = FULL ∧
      placing_ship BoardState.EMPTY 3 ⟨7, 0⟩ Direction.horizontal =
        some (BoardState.mk FULL FULL 4 3) := by
  exact ⟨by decide, by decide⟩

/-- C3 amended: for `L ∈ {3, 4}`, `placing_ship` succeeds iff the matching
counter is positive, the current hit mask is disjoint from the placement's hit
mask, and disjoint from the placement's outline mask.  There is no in-bounds
(FULL-sentinel) condition: when the precomputed mask is FULL the placement
still succeeds whenever `current.hit_mask == 0`. -/
theorem placing_ship_succeeds_iff (s : BoardState) (p : Point) (d : Direction) (L : Int)
    (hL : L = 3 ∨ L = 4) :
    (placing_ship s L p d).isSome = true ↔
      ((if L = 3 then s.three_count_remaining ≠ 0 else s.four_count_remaining ≠ 0) ∧
        s.hit_mask &&& mask_for_ship_hit L p d = 0 ∧
        s.hit_mask &&& mask_for_ship_outline L p d = 0) := by
  rcases hL with rfl | rfl
  · simp only [placing_ship, if_pos rfl]
    by_cases h3 : s.three_count_remaining = 0
    · simp [h3]
    · simp only [if_neg h3]
      split_ifs with h1 h2 <;> simp_all
  · have h43 : (4 : Int) ≠ 3 := by norm_num
    simp only [placing_ship, if_neg h43, if_pos rfl]
    by_cases h4 : s.four_count_remaining = 0
    · simp [h4, h43]
    · simp only [if_neg h4]
      split_ifs with h1 h2 <;> simp_all

/-- C3 witness: the characterization at the empty board, length 3, anchor
`(0,0)`, horizontal. -/
theorem placing_ship_succeeds_iff_witness :
    (placing_ship BoardState.EMPTY 3 ⟨0, 0⟩ Direction.horizontal).isSome = true ↔
      ((if (3 : Int) = 3 then BoardState.EMPTY.three_count_remaining ≠ 0
          else BoardState.EMPTY.four_count_remaining ≠ 0) ∧
        BoardState.EMPTY.hit_mask &&& mask_for_ship_hit 3 ⟨0, 0⟩ Direction.horizontal = 0 ∧
        BoardState.EMPTY.hit_mask &&& mask_for_ship_outline 3 ⟨0, 0⟩ Direction.horizontal = 0) :=
  placing_ship_succeeds_iff BoardState.EMPTY ⟨0, 0⟩ Direction.horizontal 3 (Or.inl rfl)

/-! ## Claim C4: helper bounds -/

/-- A contained point's bit index is below 81. -/
theorem index_of_lt_of_contains (p : Point) (h : contains p = true) : index_of p < 81 := by
  simp only [contains, Bool.and_eq_true, decide_eq_true_eq] at h
  obtain ⟨⟨⟨hx0, hx9⟩, hy0⟩, hy9⟩ := h
  unfold index_of
  omega

/-- Setting a contained point's bit keeps a mask below `2 ^ 81`. -/
theorem maskSetTrue_lt (m : Nat) (p : Point) (hm : m < 2 ^ 81) (hp : contains p = true) :
    maskSetTrue m p < 2 ^ 81 := by
  unfold maskSetTrue
  refine Nat.or_lt_two_pow hm ?_
  rw [Nat.one_shiftLeft]
  exact Nat.pow_lt_pow_right (by norm_num) (index_of_lt_of_contains p hp)

/-- The hit-mask builder only sets bits of contained points. -/
theorem setAllOrAbort_lt (ps : List Point) :
    ∀ (acc m : Nat), acc < 2 ^ 81 → setAllOrAbort ps acc = some m → m < 2 ^ 81 := by
  induction ps with
  | nil =>
    intro acc m hacc h
    simp only [setAllOrAbort, Option.some.injEq] at h
    omega
  | cons p ps ih =>
    intro acc m hacc h
    simp only [setAllOrAbort] at h
    split at h
    · exact ih _ m (maskSetTrue_lt acc p hacc (by assumption)) h
    · cases h

/-- `FULL` is below `2 ^ 81`. -/
theorem FULL_lt : FULL < 2 ^ 81 := by norm_num [FULL]

/-- Every generated ship hit mask fits in 81 bits. -/
theorem generate_mask_for_ship_hit_lt (L : Int) (st : Point) (d : Direction) :
    generate_mask_for_ship_hit L st d < 2 ^ 81 := by
  simp only [generate_mask_for_ship_hit]
  split
  · rename_i m h
    exact setAllOrAbort_lt _ 0 m (by norm_num) h
  · exact FULL_lt

/-- Every generated ship outline mask fits in 81 bits. -/
theorem generate_mask_for_ship_outline_lt (L : Int) (st : Point) (d : Direction) :
    generate_mask_for_ship_outline L st d < 2 ^ 81 := by
  simp only [generate_mask_for_ship_outline]
  split
  · exact FULL_lt
  · exact Nat.and_lt_two_pow _ (Nat.and_lt_two_pow _ FULL_lt)

/-- The fuel-driven trailing-zero count of a nonzero value `m ≤ fuel` indexes
an actually set bit: `2 ^ count ≤ m`. -/
theorem trailingZerosGo_pow_le (fuel : Nat) :
    ∀ m : Nat, m ≠ 0 → m ≤ fuel → 2 ^ trailingZerosGo fuel m ≤ m := by
  induction fuel with
  | zero => intro m h0 hle; omega
  | succ fuel ih =>
    intro m h0 hle
    by_cases hodd : m % 2 = 1
    · simp only [trailingZerosGo, if_pos hodd]
      omega
    · simp only [trailingZerosGo, if_neg hodd]
      have h2 : m / 2 ≠ 0 := by omega
      have hf : m / 2 ≤ fuel := by omega
      have := ih (m / 2) h2 hf
      rw [Nat.pow_succ]
      omega

/-- Trailing zeros of a nonzero 81-bit value are below 81. -/
theorem trailingZeros_lt_81 (m : Nat) (h0 : m ≠ 0) (h81 : m < 2 ^ 81) :
    trailingZeros m < 81 := by
  have hle := trailingZerosGo_pow_le m m h0 le_rfl
  rw [show trailingZerosGo m m = trailingZeros m from rfl] at hle
  by_contra hge
  have hpow : (2 : Nat) ^ 81 ≤ 2 ^ trailingZeros m :=
    Nat.pow_le_pow_right (by norm_num) (by omega)
  omega

/-- `index_of` inverts `point_of`. -/
theorem index_of_point_of (i : Nat) : index_of (point_of i) = i := by
  unfold index_of point_of
  simp only []
  omega

/-! ## Claim C4 -/

/-- C4 counterexample: mark `(0,0) … (6,0)` as misses (seven times the
enumerator's fifth child), then place a length-3 horizontal ship at the first
open cell `(7,0)`.  The ship sticks out of the board, its precomputed masks
are the FULL sentinel, and `placing_ship` nevertheless succeeds because the
hit mask is still zero — producing the reachable state
`(hit_mask = FULL, miss_mask = FULL, 4, 3)` in which the two masks overlap on
all 81 bits, violating `hit_mask & miss_mask == 0`. -/
theorem enum_reachable_overlapping_masks :
    EnumReachable (BoardState.mk FULL FULL 4 3) ∧
      (BoardState.mk FULL FULL 4 3).hit_mask &&& (BoardState.mk FULL FULL 4 3).miss_mask ≠ 0 := by
  constructor
  · have h0 : EnumReachable (BoardState.mk 0 0 5 3) := EnumReachable.init
    have step : ∀ (s s' : BoardState) (p : Point), EnumReachable s →
        first_set_position s.open_mask = some p →
        s.set_cell p CellState.Miss = s' → EnumReachable s' := by
      intro s s' p hs hfirst heq
      exact heq ▸ EnumReachable.mark_miss s p hs hfirst
    have h1 : EnumReachable (BoardState.mk 0 1 5 3) :=
      step _ _ ⟨0, 0⟩ h0 (by decide) (by decide)
    have h2 : EnumReachable (BoardState.mk 0 3 5 3) :=
      step _ _ ⟨1, 0⟩ h1 (by decide) (by decide)
    have h3 : EnumReachable (BoardState.mk 0 7 5 3) :=
      step _ _ ⟨2, 0⟩ h2 (by decide) (by decide)
    have h4 : EnumReachable (BoardState.mk 0 15 5 3) :=
      step _ _ ⟨3, 0⟩ h3 (by decide) (by decide)
    have h5 : EnumReachable (BoardState.mk 0 31 5 3) :=
      step _ _ ⟨4, 0⟩ h4 (by decide) (by decide)
    have h6 : EnumReachable (BoardState.mk 0 63 5 3) :=
      step _ _ ⟨5, 0⟩ h5 (by decide) (by decide)
    have h7 : EnumReachable (BoardState.mk 0 127 5 3) :=
      step _ _ ⟨6, 0⟩ h6 (by decide) (by decide)
    exact EnumReachable.place _ _ ⟨7, 0⟩ 3 Direction.horizontal h7 (by decide)
      (Or.inl rfl) (by decide)
  · decide

/-- C4 amended: every state reachable by the enumerator's recursion keeps both
masks within the low 81 bits and the counters within `[0,5]` and `[0,3]`; the
claimed disjointness `hit_mask & miss_mask == 0` is *not* invariant (see the
counterexample) because an out-of-bounds placement from a shipless state
merges the FULL sentinel into both masks. -/
theorem enum_reachable_state_bounds (s : BoardState) (h : EnumReachable s) :
    s.hit_mask < 2 ^ 81 ∧ s.miss_mask < 2 ^ 81 ∧
      s.three_count_remaining ≤ 5 ∧ s.four_count_remaining ≤ 3 := by
  induction h with
  | init => exact ⟨by norm_num [BoardState.EMPTY], by norm_num [BoardState.EMPTY],
      by simp [BoardState.EMPTY], by simp [BoardState.EMPTY]⟩
  | place s s' p L d hs hfirst hL hplace ih =>
    have hhit := generate_mask_for_ship_hit_lt L p d
    have hout := generate_mask_for_ship_outline_lt L p d
    obtain ⟨ih1, ih2, ih3, ih4⟩ := ih
    rcases hL with rfl | rfl
    · simp only [placing_ship, if_pos rfl] at hplace
      by_cases h3 : s.three_count_remaining = 0
      · simp [h3] at hplace
      · simp only [if_neg h3] at hplace
        replace hplace :
            (if s.hit_mask &&& mask_for_ship_hit 3 p d ≠ 0 then none
             else if s.hit_mask &&& mask_for_ship_outline 3 p d ≠ 0 then none
             else some (BoardState.mk (s.hit_mask ||| mask_for_ship_hit 3 p d)
               (s.miss_mask ||| mask_for_ship_outline 3 p d)
               (s.three_count_remaining - 1) s.four_count_remaining)) = some s' := hplace
        by_cases hc1 : s.hit_mask &&& mask_for_ship_hit 3 p d ≠ 0
        · rw [if_pos hc1] at hplace; cases hplace
        · rw [if_neg hc1] at hplace
          by_cases hc2 : s.hit_mask &&& mask_for_ship_outline 3 p d ≠ 0
          · rw [if_pos hc2] at hplace; cases hplace
          · rw [if_neg hc2] at hplace
            injection hplace with hplace
            rw [← hplace]
            exact ⟨Nat.or_lt_two_pow ih1 hhit, Nat.or_lt_two_pow ih2 hout,
              by show s.three_count_remaining - 1 ≤ 5; omega, ih4⟩
    · have h43 : (4 : Int) ≠ 3 := by norm_num
      simp only [placing_ship, if_neg h43, if_pos rfl] at hplace
      by_cases h4 : s.four_count_remaining = 0
      · simp [h4] at hplace
      · simp only [if_neg h4] at hplace
        replace hplace :
            (if s.hit_mask &&& mask_for_ship_hit 4 p d ≠ 0 then none
             else if s.hit_mask &&& mask_for_ship_outline 4 p d ≠ 0 then none
             else some (BoardState.mk (s.hit_mask ||| mask_for_ship_hit 4 p d)
               (s.miss_mask ||| mask_for_ship_outline 4 p d)
               s.three_count_remaining (s.four_count_remaining - 1))) = some s' := hplace
        by_cases hc1 : s.hit_mask &&& mask_for_ship_hit 4 p d ≠ 0
        · rw [if_pos hc1] at hplace; cases hplace
        · rw [if_neg hc1] at hplace
          by_cases hc2 : s.hit_mask &&& mask_for_ship_outline 4 p d ≠ 0
          · rw [if_pos hc2] at hplace; cases hplace
          · rw [if_neg hc2] at hplace
            injection hplace with hplace
            rw [← hplace]
            exact ⟨Nat.or_lt_two_pow ih1 hhit, Nat.or_lt_two_pow ih2 hout, ih3,
              by show s.four_count_remaining - 1 ≤ 3; omega⟩
  | mark_miss s p hs hfirst ih =>
    obtain ⟨ih1, ih2, ih3, ih4⟩ := ih
    have hzero : s.open_mask ≠ 0 := by
      intro hz
      rw [first_set_position, if_pos hz] at hfirst
      cases hfirst
    have hp : p = point_of (trailingZeros s.open_mask) := by
      rw [first_set_position, if_neg hzero] at hfirst
      exact ((Option.some.injEq _ _).mp hfirst).symm
    have hopen_lt : s.open_mask < 2 ^ 81 :=
      Nat.and_lt_two_pow _ (Nat.and_lt_two_pow _ FULL_lt)
    have hidx : index_of p < 81 := by
      rw [hp, index_of_point_of]
      exact trailingZeros_lt_81 s.open_mask hzero hopen_lt
    refine ⟨?_, ?_, ih3, ih4⟩
    · simp only [BoardState.set_cell, maskSetFalse]
      exact lt_of_le_of_lt Nat.and_le_left ih1
    · simp only [BoardState.set_cell, maskSetTrue]
      refine Nat.or_lt_two_pow ih2 ?_
      rw [Nat.one_shiftLeft]
      exact Nat.pow_lt_pow_right (by norm_num) hidx

/-- C4 witness: the bounds at the initial state. -/
theorem enum_reachable_state_bounds_witness :
    BoardState.EMPTY.hit_mask < 2 ^ 81 ∧ BoardState.EMPTY.miss_mask < 2 ^ 81 ∧
      BoardState.EMPTY.three_count_remaining ≤ 5 ∧
      BoardState.EMPTY.four_count_remaining ≤ 3 :=
  enum_reachable_state_bounds BoardState.EMPTY EnumReachable.init

end Battleship
